import Mathlib

/-!
Verification of the brain multi-agent orchestrator core against its
natural-language specification.

The Python source is shallowly embedded: pydantic models become structures,
mutating methods become state-transforming functions, `datetime.utcnow()`
becomes an explicit `Nat` timestamp argument, Python `dict`s become
association lists with first-match lookup (entries are prepended or updated
in place, mirroring dict overwrite semantics), and Python floats used for
percentages become `ℚ` (the values involved are exact).
-/

namespace Brain

/-- `TaskStatus` from `src/agent/tasks.py`. -/
inductive TaskStatus where
  | pending
  | in_progress
  | completed
  | failed
  | skipped
  | blocked
deriving DecidableEq, Repr

/-- `SessionStatus` from `src/app/models.py`. -/
inductive SessionStatus where
  | initializing
  | ready
  | processing
  | completed
  | failed
  | cancelled
deriving DecidableEq, Repr

/-- `AgentType` from `src/agent/models.py`. -/
inductive AgentType where
  | planning
  | orchestrator
  | execution
deriving DecidableEq, Repr

/-- `Task` from `src/agent/tasks.py`, restricted to the fields read by
`_optimize_execution_order` and the `TaskList` accessors.  `priority` holds
the `TaskPriority` integer value (the model is declared with
`use_enum_values = True`, and `_optimize_execution_order` reads
`getattr(t.priority, "value", t.priority)`, which is that integer either
way); `created_at` is the creation timestamp. -/
structure Task where
  id : String
  priority : Nat
  created_at : Nat
  dependencies : List String
deriving DecidableEq, Repr

/-- `TaskList` from `src/agent/tasks.py`, restricted to the fields read by
`get_progress_percentage` and `is_complete`.  `completed_task_ids` is a
Python `set`, embedded as a `Finset`. -/
structure TaskList where
  tasks : List Task
  execution_order : List String
  completed_task_ids : Finset String
  failed_task_ids : Finset String
deriving DecidableEq

/-- `TaskList.get_progress_percentage`: `100.0` for an empty task list,
otherwise `len(completed_task_ids) / len(tasks) * 100.0`. -/
def TaskList.get_progress_percentage (tl : TaskList) : ℚ :=
  if tl.tasks = [] then 100
  else ((tl.completed_task_ids.card : ℚ) / (tl.tasks.length : ℚ)) * 100

/-- `TaskList.is_complete`: `len(completed_task_ids) == len(tasks)`. -/
def TaskList.is_complete (tl : TaskList) : Bool :=
  tl.completed_task_ids.card == tl.tasks.length

/-- `ReasoningStep` from `src/agent/tasks.py`, restricted to the fields
touched by `ReasoningChain.fail_chain`. -/
structure ReasoningStep where
  step_number : Nat
  status : TaskStatus
  error : Option String
deriving DecidableEq, Repr

/-- `ReasoningChain` from `src/agent/tasks.py`, restricted to the fields
touched by `start_chain`, `complete_chain` and `fail_chain`.  The owned
`task_list`'s status and completion timestamp are inlined as
`task_list_status` / `task_list_completed_at`.  Durations computed from
`datetime` subtraction are embedded as `Int` seconds. -/
structure ReasoningChain where
  status : TaskStatus
  final_result : Option String
  current_step : Nat
  total_execution_time_seconds : Option Int
  started_at : Option Nat
  completed_at : Option Nat
  task_list_status : TaskStatus
  task_list_completed_at : Option Nat
  reasoning_steps : List ReasoningStep
deriving DecidableEq, Repr

/-- `ReasoningChain.start_chain` at wall-clock time `now`. -/
def ReasoningChain.start_chain (c : ReasoningChain) (now : Nat) : ReasoningChain :=
  { c with
    status := TaskStatus.in_progress
    started_at := some now
    task_list_status := TaskStatus.in_progress }

/-- `ReasoningChain.complete_chain` at wall-clock time `now`.  Sets the
terminal fields unconditionally; there is no guard on the current status. -/
def ReasoningChain.complete_chain (c : ReasoningChain) (finalResult : String)
    (now : Nat) : ReasoningChain :=
  { c with
    status := TaskStatus.completed
    completed_at := some now
    final_result := some finalResult
    task_list_status := TaskStatus.completed
    task_list_completed_at := some now
    total_execution_time_seconds :=
      match c.started_at with
      | some t0 => some ((now : Int) - (t0 : Int))
      | none => c.total_execution_time_seconds }

/-- `ReasoningChain.fail_chain` at wall-clock time `now`.  Sets the terminal
fields unconditionally and stamps the error on the current reasoning step
when the index is in range. -/
def ReasoningChain.fail_chain (c : ReasoningChain) (error : String)
    (now : Nat) : ReasoningChain :=
  { c with
    status := TaskStatus.failed
    completed_at := some now
    task_list_status := TaskStatus.failed
    task_list_completed_at := some now
    reasoning_steps :=
      if c.reasoning_steps ≠ [] ∧ c.current_step < c.reasoning_steps.length then
        c.reasoning_steps.set c.current_step
          { (c.reasoning_steps.getD c.current_step ⟨0, TaskStatus.pending, none⟩) with
            error := some error
            status := TaskStatus.failed }
      else c.reasoning_steps }

/-- `AppSession` from `src/app/models.py`, restricted to the fields touched
by the lifecycle operations. -/
structure AppSession where
  status : SessionStatus
  user_query : Option String
  reasoning_chain_id : Option String
  progress_percentage : ℚ
  created_at : Nat
  started_at : Option Nat
  completed_at : Option Nat
  final_result : Option String
  error_message : Option String
deriving DecidableEq, Repr

/-- A freshly constructed `AppSession` (pydantic field defaults). -/
def AppSession.mk_default (now : Nat) : AppSession :=
  { status := SessionStatus.initializing
    user_query := none
    reasoning_chain_id := none
    progress_percentage := 0
    created_at := now
    started_at := none
    completed_at := none
    final_result := none
    error_message := none }

/-- `AppSession.start_processing` at wall-clock time `now`. -/
def AppSession.start_processing (s : AppSession) (query : String) (now : Nat) :
    AppSession :=
  { s with
    status := SessionStatus.processing
    user_query := some query
    started_at := some now }

/-- `AppSession.complete_processing` at wall-clock time `now`: sets the
result, the owning chain id, and `progress_percentage = 100.0`. -/
def AppSession.complete_processing (s : AppSession) (result : String)
    (chainId : String) (now : Nat) : AppSession :=
  { s with
    status := SessionStatus.completed
    completed_at := some now
    final_result := some result
    reasoning_chain_id := some chainId
    progress_percentage := 100 }

/-- `AppSession.fail_processing` at wall-clock time `now`: sets the error
message but touches neither `progress_percentage` nor `final_result`. -/
def AppSession.fail_processing (s : AppSession) (error : String) (now : Nat) :
    AppSession :=
  { s with
    status := SessionStatus.failed
    completed_at := some now
    error_message := some error }

/-- `AppSession.cancel_processing` at wall-clock time `now`: only the status
and the completion timestamp change. -/
def AppSession.cancel_processing (s : AppSession) (now : Nat) : AppSession :=
  { s with
    status := SessionStatus.cancelled
    completed_at := some now }

/-- `AvailableToolInfo` from `src/app/tool_bridge.py` (the `_adapter` field
and the parameter schema are irrelevant to the routing claims). -/
structure AvailableToolInfo where
  name : String
  server_id : String
  server_type : String
deriving DecidableEq, Repr

/-- `ToolBridge.get_tools_for_agent_type`, with the already-fetched catalog
(`get_available_tools`' result) passed explicitly: planning is filtered to
the `codebase` and `filesystem` server types, the other roles receive the
full catalog. -/
def get_tools_for_agent_type (agentType : AgentType)
    (allTools : List AvailableToolInfo) : List AvailableToolInfo :=
  match agentType with
  | AgentType.planning =>
      allTools.filter (fun t =>
        t.server_type == "codebase" || t.server_type == "filesystem")
  | AgentType.orchestrator => allTools
  | AgentType.execution => allTools

/-- One tool server as reported by `MCPClient.get_all_servers` together with
the tools `MCPClient.list_tools` returns for it: identifier, whether its
status is `"connected"`, and its tool names. -/
structure ServerSnapshot where
  server_id : String
  connected : Bool
  tools : List String
deriving DecidableEq, Repr

/-- The `ToolBridge` cache state: `_tool_cache` (a dict keyed by
`"{server_id}:{tool_name}"`, embedded as an association list in insertion
order) and `_last_cache_update`. -/
structure BridgeState where
  tool_cache : List (String × AvailableToolInfo)
  last_cache_update : Nat
deriving DecidableEq, Repr

/-- Python dict assignment `d[k] = v`: update in place when the key exists
(keeping its position), append otherwise. -/
def dictInsert {β : Type} (l : List (String × β)) (k : String) (v : β) :
    List (String × β) :=
  if l.any (fun p => p.1 == k) then
    l.map (fun p => if p.1 == k then (k, v) else p)
  else l ++ [(k, v)]

/-- The cache TTL `_cache_ttl_seconds = 300`. -/
def cacheTtlSeconds : Nat := 300

/-- The adapter built for one reported tool
(`ToolAdapterFactory.create_adapter` plus the `AvailableToolInfo`
construction; `_determine_server_type` only fills a descriptive routing
field, irrelevant to the caching claims, so it is left blank). -/
def adaptTool (srv : ServerSnapshot) (toolName : String) : AvailableToolInfo :=
  { name := toolName, server_id := srv.server_id, server_type := "" }

/-- The inner loop body of `_get_available_tools_impl` over one server's
reported tools: append the adapter to `tools_info` and write it into the
cache under `"{server_id}:{tool_name}"`. -/
def toolFold (srv : ServerSnapshot)
    (acc : List AvailableToolInfo × List (String × AvailableToolInfo))
    (toolName : String) :
    List AvailableToolInfo × List (String × AvailableToolInfo) :=
  (acc.1 ++ [adaptTool srv toolName],
   dictInsert acc.2 (srv.server_id ++ ":" ++ toolName) (adaptTool srv toolName))

/-- The outer loop body of `_get_available_tools_impl`: servers whose
status is not `"connected"` are skipped. -/
def serverFold
    (acc : List AvailableToolInfo × List (String × AvailableToolInfo))
    (srv : ServerSnapshot) :
    List AvailableToolInfo × List (String × AvailableToolInfo) :=
  if srv.connected then srv.tools.foldl (toolFold srv) acc else acc

/-- The refresh body `_get_available_tools_impl`: for every connected
server, adapt each reported tool and write it into the cache; the freshly
built `tools_info` list is returned.  Pre-existing cache entries are never
removed. -/
def getAvailableToolsImpl (servers : List ServerSnapshot)
    (cache : List (String × AvailableToolInfo)) (now : Nat) :
    List AvailableToolInfo × BridgeState :=
  let res := servers.foldl serverFold ([], cache)
  (res.1, { tool_cache := res.2, last_cache_update := now })

/-- `ToolBridge.get_available_tools`: serve `list(self._tool_cache.values())`
when no refresh is forced, the cache is non-empty, and it is younger than
the TTL; otherwise run the refresh body.  The returned `Bool` records
whether the tool transport was consulted (`False` on the cached path). -/
def getAvailableTools (st : BridgeState) (refreshCache : Bool) (now : Nat)
    (servers : List ServerSnapshot) :
    List AvailableToolInfo × BridgeState × Bool :=
  if ¬refreshCache ∧ st.tool_cache ≠ [] ∧
      now - st.last_cache_update < cacheTtlSeconds then
    (st.tool_cache.map (fun p => p.2), st, false)
  else
    let res := getAvailableToolsImpl servers st.tool_cache now
    (res.1, res.2, true)

/-- Python values as they flow through step parameters, execution context
and step results: strings, `None`, and opaque non-string tool payloads
(distinguished by a tag). -/
inductive PyVal where
  | vstr : String → PyVal
  | vnone : PyVal
  | vdata : Nat → PyVal
deriving DecidableEq, Repr

/-- `ToolExecutionStep` from `src/agent/agents/orchestrator_agent.py`. -/
structure ToolExecutionStep where
  step_number : Nat
  tool_name : String
  server_id : String
  parameters : List (String × PyVal)
  description : String
  expected_output : String
  error_handling : String
  depends_on_steps : List Nat
deriving DecidableEq, Repr

/-- `ToolExecutionPlan` from `src/agent/agents/orchestrator_agent.py`,
restricted to the fields read or written by `_enhance_execution_plan`.  Of
the stamped metadata dict only the `validation_passed` entry is kept. -/
structure ToolExecutionPlan where
  task_id : String
  execution_steps : List ToolExecutionStep
  validation_passed : Bool
deriving DecidableEq, Repr

/-- The `available_tools` dict built at the top of
`_enhance_execution_plan` (name → tool descriptor with its `server_id`),
embedded as an association list; Python dict construction lets the last
write win, hence lookup scans the reversed list. -/
def availLookup (availableTools : List (String × String)) (name : String) :
    Option String :=
  (availableTools.reverse.find? (fun p => p.1 == name)).map (fun p => p.2)

/-- `OrchestratorAgent._enhance_execution_plan`: for every step whose
`tool_name` is in the `available_tools` dict, overwrite `server_id` with
the canonical value when it is empty or differs (a warning is logged for
unknown tools but the step is left untouched); finally stamp
`validation_passed` metadata.  `depends_on_steps` is never inspected. -/
def enhanceExecutionPlan (plan : ToolExecutionPlan)
    (availableTools : List (String × String)) : ToolExecutionPlan :=
  let steps := plan.execution_steps.map (fun step =>
    match availLookup availableTools step.tool_name with
    | none => step
    | some correctServerId =>
        if step.server_id = "" ∨ step.server_id ≠ correctServerId then
          { step with server_id := correctServerId }
        else step)
  { plan with execution_steps := steps, validation_passed := true }

/-- One entry of `ExecutionAgent.step_results`.  A successful step's dict
carries a `result` key, a failed step's dict carries an `error` key
instead; `dict.get("result")` on a failed entry therefore yields `None`,
which the embedding renders as `result = none`. -/
structure StepResult where
  step_number : Nat
  tool_name : String
  success : Bool
  result : Option PyVal
  error : Option String
  parameters : List (String × PyVal)
deriving DecidableEq, Repr

/-- Detection of a dynamic parameter reference in
`_resolve_step_parameters`:
`value.startswith("$\x7b") and value.endswith("\x7d")`, embedded at the
character level. -/
def isParamRef (s : String) : Bool :=
  s.data.take 2 == ['$', '\x7b'] && s.data.getLast? == some '\x7d'

/-- `value[2:-1]`: the reference name inside `"$\x7b...\x7d"`. -/
def refName (s : String) : String :=
  (s.drop 2).dropRight 1

/-- The `f"step_\x7bn\x7d_result"` key under which a step's result is
published. -/
def stepKey (n : Nat) : String :=
  "step_" ++ toString n ++ "_result"

/-- `ExecutionAgent._resolve_step_parameters`: each parameter value of
reference shape is looked up in `execution_context` first, then matched
against the `step_<N>_result` name of each recorded step result in order
(taking that entry's `result` value, `None` when the key is absent), and
kept as the original literal only when neither lookup matches. -/
def resolveStepParameters (ctx : List (String × PyVal))
    (results : List StepResult) (params : List (String × PyVal)) :
    List (String × PyVal) :=
  params.map (fun kv =>
    match kv.2 with
    | PyVal.vstr s =>
      if isParamRef s then
        match ctx.find? (fun p => p.1 == refName s) with
        | some p => (kv.1, p.2)
        | none =>
          match results.find? (fun r => refName s == stepKey r.step_number) with
          | some r => (kv.1, r.result.getD PyVal.vnone)
          | none => kv
      else kv
    | _ => kv)

/-- ASCII lower-casing of one character (Python `str.lower` restricted to
the ASCII strings the recovery policies use). -/
def charLower (c : Char) : Char :=
  if 65 ≤ c.toNat ∧ c.toNat ≤ 90 then Char.ofNat (c.toNat + 32) else c

/-- Python `s.lower()` for the ASCII policy strings. -/
def pyLower (s : String) : String :=
  ⟨s.data.map charLower⟩

/-- Python `s.startswith("SUCCESS")`, embedded at the character level. -/
def startsWithSuccess (s : String) : Bool :=
  s.data.take 7 == "SUCCESS".data

/-- The outcome `mcp_bridge.execute_tool` produces for one invocation: a
`ToolCall` whose `error` is set on failure and whose `result` carries the
payload otherwise. -/
structure ToolOutcome where
  error : Option String
  result : PyVal
deriving DecidableEq, Repr

/-- The mutable fields of `ExecutionAgent` during one plan run:
`step_results`, `execution_context`, plus a counter of tool invocations so
far, used to index the invocation oracle. -/
structure ExecState where
  step_results : List StepResult
  execution_context : List (String × PyVal)
  invocations : Nat
deriving DecidableEq, Repr

/-- `ExecutionAgent._execute_step`: resolve the parameters against the
current state, invoke the tool (the oracle supplies the transport's answer
for the next invocation), and on success publish the result into
`execution_context` under `step_<N>_result`. -/
def executeStep (oracle : Nat → ToolOutcome) (step : ToolExecutionStep)
    (s : ExecState) : StepResult × ExecState :=
  let resolvedParams :=
    resolveStepParameters s.execution_context s.step_results step.parameters
  let out := oracle s.invocations
  let s1 := { s with invocations := s.invocations + 1 }
  match out.error with
  | some e =>
      ({ step_number := step.step_number, tool_name := step.tool_name,
         success := false, result := none, error := some e,
         parameters := resolvedParams }, s1)
  | none =>
      ({ step_number := step.step_number, tool_name := step.tool_name,
         success := true, result := some out.result, error := none,
         parameters := resolvedParams },
       { s1 with
         execution_context :=
           dictInsert s1.execution_context (stepKey step.step_number) out.result })

/-- `ExecutionAgent._check_step_dependencies`: every number in
`depends_on_steps` must have a successful entry among the recorded step
results (the first entry with that step number is consulted). -/
def checkStepDependencies (results : List StepResult)
    (step : ToolExecutionStep) : Bool :=
  step.depends_on_steps.all (fun dep =>
    match results.find? (fun r => r.step_number == dep) with
    | some r => r.success
    | none => false)

/-- `ExecutionAgent._attempt_recovery`.  For `retry_once` the step is
re-executed once and, on success, `self.step_results[step_index]` is
overwritten.  Python list assignment raises `IndexError` when
`step_index` is out of range; the embedding surfaces that uncaught
exception as `Except.error` carrying the state at the raise point. -/
def attemptRecovery (oracle : Nat → ToolOutcome) (step : ToolExecutionStep)
    (stepIndex : Nat) (s : ExecState) : Except ExecState (String × ExecState) :=
  let eh := pyLower step.error_handling
  if eh == "retry_once" then
    let rr := executeStep oracle step s
    if rr.1.success then
      if stepIndex < rr.2.step_results.length then
        Except.ok
          ("SUCCESS: Retry of step " ++ toString step.step_number ++ " succeeded",
           { rr.2 with step_results := rr.2.step_results.set stepIndex rr.1 })
      else Except.error rr.2
    else
      Except.ok
        ("FAILED: Retry of step " ++ toString step.step_number ++ " failed", rr.2)
  else if eh == "skip" then
    Except.ok
      ("SKIPPED: Step " ++ toString step.step_number ++ " skipped due to failure", s)
  else if eh == "fallback" then
    Except.ok
      ("FALLBACK: Step " ++ toString step.step_number ++
       " needs fallback implementation", s)
  else
    Except.ok
      ("NO_RECOVERY: No recovery action for step " ++ toString step.step_number, s)

/-- The aggregate bookkeeping of `_execute_plan`: the agent state plus the
local counters of the loop.  `aborted` records that the surrounding
`try/except` caught an exception (after which the loop stops and the plan
is reported failed). -/
structure PlanRun where
  state : ExecState
  completed_steps : Nat
  errors_encountered : List String
  recovery_actions : List String
  tool_calls_made : Nat
  aborted : Bool
deriving DecidableEq, Repr

/-- The step loop of `ExecutionAgent._execute_plan` over the enumerated
execution steps (`i` is the plan position used as `step_index` for
recovery).  Steps with unsatisfied dependencies are skipped without
appending a step result; failed steps trigger `_attempt_recovery`, whose
`SUCCESS`-prefixed outcome counts as a completed step; an uncaught
exception aborts the loop. -/
def execSteps (oracle : Nat → ToolOutcome) :
    List (Nat × ToolExecutionStep) → PlanRun → PlanRun
  | [], run => run
  | (i, step) :: rest, run =>
    if ¬ checkStepDependencies run.state.step_results step then
      execSteps oracle rest
        { run with errors_encountered := run.errors_encountered ++
            ["Step " ++ toString step.step_number ++ " dependencies not satisfied"] }
    else
      let rs := executeStep oracle step run.state
      let s2 := { rs.2 with step_results := rs.2.step_results ++ [rs.1] }
      let run2 := { run with
        state := s2
        tool_calls_made := run.tool_calls_made + 1 }
      if rs.1.success then
        execSteps oracle rest
          { run2 with completed_steps := run2.completed_steps + 1 }
      else
        let run3 := { run2 with errors_encountered := run2.errors_encountered ++
            ["Step " ++ toString step.step_number ++ " failed: " ++
             rs.1.error.getD "Unknown error"] }
        match attemptRecovery oracle step i run3.state with
        | Except.ok act =>
            execSteps oracle rest
              { run3 with
                state := act.2
                recovery_actions := run3.recovery_actions ++ [act.1]
                completed_steps := run3.completed_steps +
                  (if startsWithSuccess act.1 then 1 else 0) }
        | Except.error s4 =>
            { run3 with state := s4, aborted := true }

/-- `ExecutionAgent._execute_plan` for a plan, starting from the caller's
`context` copy as initial `execution_context`. -/
def executePlan (oracle : Nat → ToolOutcome) (plan : ToolExecutionPlan)
    (context : List (String × PyVal)) : PlanRun :=
  execSteps oracle plan.execution_steps.enum
    { state := { step_results := [], execution_context := context,
                 invocations := 0 },
      completed_steps := 0, errors_encountered := [], recovery_actions := [],
      tool_calls_made := 0, aborted := false }

/-- The mutable state of `PlanningAgent._optimize_execution_order`:
`visited`, `temp_visited`, `execution_order`, plus a ghost record of the
dependency edges elided on cycle detection (in the source these are only
logged: a call on a task already in `temp_visited` returns without
visiting it). -/
structure VisitState where
  visited : List String
  temp : List String
  order : List String
  dropped : List (String × String)
deriving DecidableEq, Repr

/-- The per-task `visit` closure of `_optimize_execution_order`.  Fuel
drives the recursion; the top-level entry supplies more fuel than the DFS
can ever consume (the stack of active visits holds distinct mapped ids),
so the `0` case is unreachable there.  Dependency edges whose target is
already on the recursion stack are recorded as dropped instead of
recursed into — exactly the source's early `return` on
`task_id in temp_visited`, lifted to the caller so the elided edge can be
named. -/
def visit (taskMap : String → Option Task) : Nat → String → VisitState → VisitState
  | 0, _, s => s
  | fuel + 1, tid, s =>
    if tid ∈ s.temp then s
    else if tid ∈ s.visited then s
    else
      let s1 := { s with temp := tid :: s.temp }
      let s2 :=
        match taskMap tid with
        | none => s1
        | some task =>
          task.dependencies.foldl
            (fun acc depId =>
              if (taskMap depId).isSome then
                if depId ∈ acc.temp then
                  { acc with dropped := acc.dropped ++ [(tid, depId)] }
                else visit taskMap fuel depId acc
              else acc)
            s1
      { s2 with
        temp := s2.temp.erase tid
        visited := tid :: s2.visited
        order := s2.order ++ [tid] }

/-- The sort key comparator realising
`sorted(tasks, key=lambda t: (priority_value, created_at), reverse=True)`:
`a` may precede `b` iff `a`'s key `(priority, created_at)` is
lexicographically ≥ `b`'s.  `List.mergeSort` with this relation is the
stable descending sort Python produces. -/
def keyGE (a b : Task) : Bool :=
  (b.priority < a.priority) ||
    (b.priority == a.priority && b.created_at ≤ a.created_at)

/-- The `task_map` dict of `_optimize_execution_order`; Python dict
comprehension lets the last task win on a duplicated id. -/
def taskMapOf (tasks : List Task) (tid : String) : Option Task :=
  tasks.reverse.find? (fun t => t.id == tid)

/-- `PlanningAgent._optimize_execution_order`: DFS post-order over the
tasks pre-sorted by descending `(priority, created_at)`, returning the
execution order together with the ghost list of dropped cycle edges. -/
def optimizeExecutionOrder (tasks : List Task) :
    List String × List (String × String) :=
  let taskMap := taskMapOf tasks
  let sortedTasks := tasks.mergeSort keyGE
  let fuel := tasks.length + 1
  let final := sortedTasks.foldl
    (fun s t => if t.id ∈ s.visited then s else visit taskMap fuel t.id s)
    { visited := [], temp := [], order := [], dropped := [] }
  (final.order, final.dropped)

/-! Concrete fixtures used by counterexamples and witnesses. -/

/-- Task "A" of the spec's A→B→A cycle example. -/
def cycleTaskA : Task :=
  { id := "A", priority := 2, created_at := 0, dependencies := ["B"] }

/-- Task "B" of the spec's A→B→A cycle example. -/
def cycleTaskB : Task :=
  { id := "B", priority := 2, created_at := 0, dependencies := ["A"] }

/-- A dependency-free task created at time 1 (medium priority). -/
def earlyTask : Task :=
  { id := "a", priority := 2, created_at := 1, dependencies := [] }

/-- A dependency-free task of the same priority created later, at time 2. -/
def lateTask : Task :=
  { id := "b", priority := 2, created_at := 2, dependencies := [] }

/-- A freshly constructed reasoning chain (pydantic defaults). -/
def freshChain : ReasoningChain :=
  { status := TaskStatus.pending, final_result := none, current_step := 0,
    total_execution_time_seconds := none, started_at := none,
    completed_at := none, task_list_status := TaskStatus.pending,
    task_list_completed_at := none, reasoning_steps := [] }

/-- A chain that was started at time 0 and failed at time 1: it is in the
terminal `failed` state. -/
def failedChain : ReasoningChain :=
  (freshChain.start_chain 0).fail_chain "stage error" 1

/-- A session that was started at time 1 and cancelled at time 2. -/
def cancelledSession : AppSession :=
  ((AppSession.mk_default 0).start_processing "query" 1).cancel_processing 2

/-- A tool served by a `git`-type server. -/
def gitTool : AvailableToolInfo :=
  { name := "git_status", server_id := "git", server_type := "git" }

/-- A tool served by a `codebase`-type server. -/
def codebaseTool : AvailableToolInfo :=
  { name := "analyze_project", server_id := "codebase", server_type := "codebase" }

/-- A plan step builder for the execution fixtures. -/
def mkFixtureStep (n : Nat) (deps : List Nat) (eh : String) : ToolExecutionStep :=
  { step_number := n, tool_name := "read_file", server_id := "fs",
    parameters := [], description := "", expected_output := "",
    error_handling := eh, depends_on_steps := deps }

/-- A two-step plan whose dependency graph is the cycle 1→2→1. -/
def cyclicPlan : ToolExecutionPlan :=
  { task_id := "task-cyc",
    execution_steps :=
      [{ mkFixtureStep 1 [2] "retry_once" with tool_name := "read_file" },
       { mkFixtureStep 2 [1] "retry_once" with tool_name := "read_file" }],
    validation_passed := false }

/-- The `available_tools` dict contents for the cyclic-plan fixture. -/
def availFixture : List (String × String) := [("read_file", "fs")]

/-- A recorded step result for a step 3 that failed (its dict has an
`error` key and no `result` key). -/
def failedStep3 : StepResult :=
  { step_number := 3, tool_name := "read_file", success := false,
    result := none, error := some "tool failed", parameters := [] }

/-- An invocation oracle whose first call fails and whose later calls
succeed: the shape needed for a `retry_once` recovery to fire and win. -/
def failThenSucceed (i : Nat) : ToolOutcome :=
  if i == 0 then { error := some "transient failure", result := PyVal.vnone }
  else { error := none, result := PyVal.vdata 7 }

/-- A plan whose first step is skipped (its dependency 99 can never be
satisfied) and whose second step carries `error_handling = retry_once`. -/
def skipThenRetryPlan : ToolExecutionPlan :=
  { task_id := "task-skip",
    execution_steps := [mkFixtureStep 1 [99] "retry_once",
                        mkFixtureStep 2 [] "retry_once"],
    validation_passed := false }

/-- The same retry step alone, without the skipped predecessor. -/
def retryOnlyPlan : ToolExecutionPlan :=
  { task_id := "task-retry",
    execution_steps := [mkFixtureStep 2 [] "retry_once"],
    validation_passed := false }

/-- A cached adapter for a tool that the server will no longer report. -/
def oldToolInfo : AvailableToolInfo :=
  { name := "oldtool", server_id := "s1", server_type := "" }

/-- A bridge whose stale cache holds only `oldtool`. -/
def staleBridge : BridgeState :=
  { tool_cache := [("s1:oldtool", oldToolInfo)], last_cache_update := 0 }

/-- The transport snapshot after the server dropped `oldtool`: server `s1`
is connected and now reports only `newtool`. -/
def serverS1 : ServerSnapshot :=
  { server_id := "s1", connected := true, tools := ["newtool"] }

/-- A task list with no tasks and no recorded completions. -/
def emptyTaskList : TaskList :=
  { tasks := [], execution_order := [], completed_task_ids := ∅,
    failed_task_ids := ∅ }

/-- Specification-side description of one refresh round: the adapters built
from the tools of the connected servers, in report order.  Used to compare
the refresh path of `getAvailableTools` against the spec's "a fresh
snapshot is fetched". -/
def freshToolList (servers : List ServerSnapshot) : List AvailableToolInfo :=
  servers.foldl
    (fun acc srv =>
      if srv.connected then acc ++ srv.tools.map (adaptTool srv) else acc)
    []

/-! Invariants of the `_optimize_execution_order` DFS. -/

/-- Precedence invariant: every task already emitted into
`execution_order` has each of its resolvable dependencies either emitted
earlier or recorded as a dropped cycle edge. -/
def precOK (tm : String → Option Task) (s : VisitState) : Prop :=
  ∀ tid task, tm tid = some task → tid ∈ s.order →
    ∀ d ∈ task.dependencies, (tm d).isSome →
      (tid, d) ∈ s.dropped ∨
        (d ∈ s.order ∧ s.order.indexOf d < s.order.indexOf tid)

/-- The full invariant carried through the DFS: the emitted order is
duplicate-free, `visited` and `order` hold the same ids, every id on the
recursion stack or in the order is mapped, the stack is duplicate-free and
disjoint from the order, and the precedence invariant holds. -/
def goodState (tm : String → Option Task) (s : VisitState) : Prop :=
  s.order.Nodup ∧
  (∀ x, x ∈ s.visited ↔ x ∈ s.order) ∧
  (∀ x ∈ s.temp, (tm x).isSome) ∧
  s.temp.Nodup ∧
  (∀ x ∈ s.order, (tm x).isSome) ∧
  (∀ x ∈ s.temp, x ∉ s.order) ∧
  precOK tm s

/-- What one DFS call guarantees relative to its start state: the
recursion stack is restored, the invariant is maintained, `visited` and
`dropped` only grow, the order is only appended to, and ids that were on
the stack and unemitted stay unemitted. -/
def visitPost (tm : String → Option Task) (s r : VisitState) : Prop :=
  r.temp = s.temp ∧
  goodState tm r ∧
  (∀ x ∈ s.visited, x ∈ r.visited) ∧
  (∃ l, r.order = s.order ++ l) ∧
  (∀ e ∈ s.dropped, e ∈ r.dropped) ∧
  (∀ x ∈ s.temp, x ∉ s.order → x ∉ r.order)

/-! Theorems. -/

/-- C10: a `TaskList` whose `tasks` list is empty reports
`get_progress_percentage() = 100.0` and `is_complete() = true` — vacuously
complete at full progress rather than at 0%.  (The data-model invariant
`completed_task_ids ⊆ task ids` is assumed; it is vacuous here.) -/
theorem C10_empty_tasklist_complete (tl : TaskList)
    (hempty : tl.tasks = [])
    (hsub : ∀ x ∈ tl.completed_task_ids, ∃ t ∈ tl.tasks, t.id = x) :
    tl.get_progress_percentage = 100 ∧ tl.is_complete = true := by
  have hc : tl.completed_task_ids = ∅ := by
    apply Finset.eq_empty_iff_forall_not_mem.mpr
    intro x hx
    obtain ⟨t, ht, -⟩ := hsub x hx
    rw [hempty] at ht
    exact (List.not_mem_nil t) ht
  constructor
  · unfold TaskList.get_progress_percentage
    rw [if_pos hempty]
  · unfold TaskList.is_complete
    rw [hempty, hc]
    rfl

/-- C10 witness: the hypotheses and the conclusion at the concrete empty
task list. -/
theorem C10_empty_tasklist_complete_witness :
    (emptyTaskList.tasks = [] ∧
      ∀ x ∈ emptyTaskList.completed_task_ids, ∃ t ∈ emptyTaskList.tasks, t.id = x) ∧
    (emptyTaskList.get_progress_percentage = 100 ∧ emptyTaskList.is_complete = true) :=
  ⟨⟨rfl, by intro x hx; exact absurd hx (Finset.not_mem_empty x)⟩,
   C10_empty_tasklist_complete emptyTaskList rfl
     (by intro x hx; exact absurd hx (Finset.not_mem_empty x))⟩

/-- C6 counterexample: calling `complete_chain` on a chain that is already
terminal (`failed`) is not a no-op — the status flips to `completed`, the
final result is set, and the timestamps move, so the state changes. -/
theorem C6_terminal_not_idempotent_counterexample :
    failedChain.status = TaskStatus.failed ∧
    (failedChain.complete_chain "late result" 2).status = TaskStatus.completed ∧
    (failedChain.complete_chain "late result" 2).final_result = some "late result" ∧
    failedChain.complete_chain "late result" 2 ≠ failedChain := by
  refine ⟨rfl, rfl, rfl, ?_⟩
  intro h
  have := congrArg ReasoningChain.status h
  simp [failedChain, ReasoningChain.complete_chain, ReasoningChain.fail_chain,
    ReasoningChain.start_chain, freshChain] at this

/-- C6 amended: `complete_chain` and `fail_chain` carry no terminal-state
guard; each call unconditionally overwrites the status, the completion
timestamp, and (for `complete_chain`) the final result — the last call
wins, not the first. -/
theorem C6_last_terminal_call_wins (c : ReasoningChain) (r e : String) (t : Nat) :
    ((c.complete_chain r t).status = TaskStatus.completed ∧
     (c.complete_chain r t).final_result = some r ∧
     (c.complete_chain r t).completed_at = some t ∧
     (c.complete_chain r t).task_list_status = TaskStatus.completed) ∧
    ((c.fail_chain e t).status = TaskStatus.failed ∧
     (c.fail_chain e t).completed_at = some t ∧
     (c.fail_chain e t).task_list_status = TaskStatus.failed) :=
  ⟨⟨rfl, rfl, rfl, rfl⟩, ⟨rfl, rfl, rfl⟩⟩

/-- C5 counterexample: a session cancelled while processing is terminal
(`cancelled`) yet its `progress_percentage` is 0, and neither
`final_result` nor `error_message` is set — refuting both
`progress_percentage = 100` and the exactly-one disjunction. -/
theorem C5_terminal_session_counterexample :
    cancelledSession.status = SessionStatus.cancelled ∧
    cancelledSession.progress_percentage = 0 ∧
    cancelledSession.progress_percentage ≠ 100 ∧
    cancelledSession.final_result = none ∧
    cancelledSession.error_message = none := by
  refine ⟨rfl, rfl, ?_, rfl, rfl⟩
  have h : cancelledSession.progress_percentage = 0 := rfl
  rw [h]
  norm_num

/-- C5 amended: for a session started at `t0` and driven to a terminal
state at `t1 ≥ t0`, `completed_at ≥ started_at` always holds, but only
`complete_processing` sets `progress_percentage = 100` together with
exactly one of `final_result`/`error_message`; `fail_processing` sets the
error but leaves the progress untouched, and `cancel_processing` sets
neither result nor error and leaves the progress untouched. -/
theorem C5_terminal_session_fields (s : AppSession) (res chain err : String)
    (t0 t1 : Nat) (hstart : s.started_at = some t0) (hmono : t0 ≤ t1)
    (hres : s.final_result = none) (herr : s.error_message = none) :
    ((s.complete_processing res chain t1).progress_percentage = 100 ∧
     (s.complete_processing res chain t1).final_result = some res ∧
     (s.complete_processing res chain t1).error_message = none ∧
     ∃ ta tb, (s.complete_processing res chain t1).started_at = some ta ∧
       (s.complete_processing res chain t1).completed_at = some tb ∧ ta ≤ tb) ∧
    ((s.fail_processing err t1).error_message = some err ∧
     (s.fail_processing err t1).final_result = none ∧
     (s.fail_processing err t1).progress_percentage = s.progress_percentage ∧
     ∃ ta tb, (s.fail_processing err t1).started_at = some ta ∧
       (s.fail_processing err t1).completed_at = some tb ∧ ta ≤ tb) ∧
    ((s.cancel_processing t1).final_result = none ∧
     (s.cancel_processing t1).error_message = none ∧
     (s.cancel_processing t1).progress_percentage = s.progress_percentage ∧
     ∃ ta tb, (s.cancel_processing t1).started_at = some ta ∧
       (s.cancel_processing t1).completed_at = some tb ∧ ta ≤ tb) := by
  refine ⟨⟨rfl, rfl, herr, ⟨t0, t1, hstart, rfl, hmono⟩⟩,
    ⟨rfl, hres, rfl, ⟨t0, t1, hstart, rfl, hmono⟩⟩,
    ⟨hres, herr, rfl, ⟨t0, t1, hstart, rfl, hmono⟩⟩⟩

/-- C5 amended witness: the hypotheses and a projection of the conclusion
at a concrete started session. -/
theorem C5_terminal_session_fields_witness :
    (((AppSession.mk_default 0).start_processing "q" 1).started_at = some 1 ∧
     (1 : Nat) ≤ 2 ∧
     ((AppSession.mk_default 0).start_processing "q" 1).final_result = none ∧
     ((AppSession.mk_default 0).start_processing "q" 1).error_message = none) ∧
    ((((AppSession.mk_default 0).start_processing "q" 1).complete_processing
        "done" "chain-1" 2).progress_percentage = 100 ∧
     (((AppSession.mk_default 0).start_processing "q" 1).fail_processing
        "boom" 2).progress_percentage =
       ((AppSession.mk_default 0).start_processing "q" 1).progress_percentage) :=
  ⟨⟨rfl, by norm_num, rfl, rfl⟩,
   ⟨(C5_terminal_session_fields ((AppSession.mk_default 0).start_processing "q" 1)
       "done" "chain-1" "boom" 1 2 rfl (by norm_num) rfl rfl).1.1,
    (C5_terminal_session_fields ((AppSession.mk_default 0).start_processing "q" 1)
       "done" "chain-1" "boom" 1 2 rfl (by norm_num) rfl rfl).2.1.2.2.1⟩⟩

/-- C8 counterexample: a `git`-type tool is in the full catalog but not in
what `get_tools_for_agent_type` returns for the planning role, so the
planning role does not see the full catalog. -/
theorem C8_planning_filtered_counterexample :
    get_tools_for_agent_type AgentType.planning [gitTool] = [] ∧
    gitTool ∉ get_tools_for_agent_type AgentType.planning [gitTool] ∧
    gitTool ∈ [gitTool] := by
  refine ⟨rfl, ?_, List.mem_singleton_self gitTool⟩
  intro h
  simp [get_tools_for_agent_type, gitTool] at h

/-- C8 amended: the orchestrator and execution roles receive exactly the
full catalog, while the planning role receives exactly the tools whose
`server_type` is `codebase` or `filesystem`. -/
theorem C8_tools_for_agent_type (tools : List AvailableToolInfo) :
    get_tools_for_agent_type AgentType.orchestrator tools = tools ∧
    get_tools_for_agent_type AgentType.execution tools = tools ∧
    ∀ t ∈ tools,
      (t ∈ get_tools_for_agent_type AgentType.planning tools ↔
        (t.server_type = "codebase" ∨ t.server_type = "filesystem")) := by
  refine ⟨rfl, rfl, ?_⟩
  intro t ht
  unfold get_tools_for_agent_type
  rw [List.mem_filter]
  constructor
  · rintro ⟨-, hp⟩
    rcases Bool.or_eq_true_iff.mp hp with h | h
    · exact Or.inl (by simpa using h)
    · exact Or.inr (by simpa using h)
  · intro h
    refine ⟨ht, ?_⟩
    rcases h with h | h
    · exact Bool.or_eq_true_iff.mpr (Or.inl (by simpa using h))
    · exact Bool.or_eq_true_iff.mpr (Or.inr (by simpa using h))

/-- C8 amended witness: the conclusion instantiated at a concrete two-tool
catalog and the concrete codebase tool. -/
theorem C8_tools_for_agent_type_witness :
    get_tools_for_agent_type AgentType.orchestrator [gitTool, codebaseTool] =
      [gitTool, codebaseTool] ∧
    codebaseTool ∈ [gitTool, codebaseTool] ∧
    (codebaseTool ∈ get_tools_for_agent_type AgentType.planning
        [gitTool, codebaseTool] ↔
      (codebaseTool.server_type = "codebase" ∨
       codebaseTool.server_type = "filesystem")) :=
  ⟨(C8_tools_for_agent_type [gitTool, codebaseTool]).1,
   by simp,
   (C8_tools_for_agent_type [gitTool, codebaseTool]).2.2 codebaseTool (by simp)⟩

/-- Helper: the step transformation of `_enhance_execution_plan` never
changes `step_number` or `depends_on_steps`. -/
theorem enhance_step_preserves (step : ToolExecutionStep)
    (avail : List (String × String)) :
    (match availLookup avail step.tool_name with
      | none => step
      | some correctServerId =>
          if step.server_id = "" ∨ step.server_id ≠ correctServerId then
            { step with server_id := correctServerId }
          else step).depends_on_steps = step.depends_on_steps ∧
    (match availLookup avail step.tool_name with
      | none => step
      | some correctServerId =>
          if step.server_id = "" ∨ step.server_id ≠ correctServerId then
            { step with server_id := correctServerId }
          else step).step_number = step.step_number := by
  constructor
  · split
    · rfl
    · split <;> rfl
  · split
    · rfl
    · split <;> rfl

/-- C2 counterexample: the validation-and-repair pass leaves a plan whose
step dependency graph is the cycle 1→2→1 fully intact — step 1 still
depends on step 2, so not every `depends_on_steps` entry is below its
`step_number`, and no back-edge was dropped. -/
theorem C2_cycle_not_repaired_counterexample :
    ((enhanceExecutionPlan cyclicPlan availFixture).execution_steps.map
        (fun s => s.depends_on_steps)) = [[2], [1]] ∧
    ¬ (∀ step ∈ (enhanceExecutionPlan cyclicPlan availFixture).execution_steps,
        ∀ d ∈ step.depends_on_steps, d < step.step_number) := by
  constructor
  · rfl
  · intro h
    have h1 := h ((enhanceExecutionPlan cyclicPlan availFixture).execution_steps.get
      ⟨0, by decide⟩) (by decide) 2 (by decide)
    revert h1
    decide

/-- C2 amended: `_enhance_execution_plan` validates tool names and
canonicalises `server_id` only; it never inspects or modifies
`depends_on_steps` or `step_number`, so no cycle within a plan is
detected or repaired. -/
theorem C2_enhance_preserves_dependencies (plan : ToolExecutionPlan)
    (avail : List (String × String)) :
    ((enhanceExecutionPlan plan avail).execution_steps.map
        (fun s => s.depends_on_steps) =
      plan.execution_steps.map (fun s => s.depends_on_steps)) ∧
    ((enhanceExecutionPlan plan avail).execution_steps.map
        (fun s => s.step_number) =
      plan.execution_steps.map (fun s => s.step_number)) ∧
    (enhanceExecutionPlan plan avail).validation_passed = true := by
  refine ⟨?_, ?_, rfl⟩
  · unfold enhanceExecutionPlan
    rw [List.map_map]
    apply List.map_congr_left
    intro step _
    exact (enhance_step_preserves step avail).1
  · unfold enhanceExecutionPlan
    rw [List.map_map]
    apply List.map_congr_left
    intro step _
    exact (enhance_step_preserves step avail).2

/-- C3 counterexample: a `${step_3_result}` parameter where step 3 failed
does not keep the literal string — the failed entry in `step_results`
matches the reference and its missing `result` key resolves to `None`. -/
theorem C3_failed_step_reference_counterexample :
    failedStep3.success = false ∧
    resolveStepParameters [] [failedStep3]
        [("path", PyVal.vstr "${step_3_result}")] =
      [("path", PyVal.vnone)] ∧
    PyVal.vnone ≠ PyVal.vstr "${step_3_result}" := by
  refine ⟨rfl, by decide, by decide⟩

/-- C3 amended: a `${key}` parameter is resolved against
`execution_context` first, then against the first recorded step result
whose `step_<N>_result` name matches — regardless of that step's success,
so a failed step's entry yields its absent `result` value (`None`) — and
is left as the literal string only when neither lookup matches. -/
theorem C3_parameter_resolution_order (ctx : List (String × PyVal))
    (results : List StepResult) (k s : String) (href : isParamRef s = true) :
    (∀ p, ctx.find? (fun q => q.1 == refName s) = some p →
      resolveStepParameters ctx results [(k, PyVal.vstr s)] = [(k, p.2)]) ∧
    (ctx.find? (fun q => q.1 == refName s) = none →
      (∀ r, results.find? (fun r2 => refName s == stepKey r2.step_number) = some r →
        resolveStepParameters ctx results [(k, PyVal.vstr s)] =
          [(k, r.result.getD PyVal.vnone)]) ∧
      (results.find? (fun r2 => refName s == stepKey r2.step_number) = none →
        resolveStepParameters ctx results [(k, PyVal.vstr s)] =
          [(k, PyVal.vstr s)])) := by
  constructor
  · intro p hp
    simp [resolveStepParameters, href, hp]
  · intro hc
    constructor
    · intro r hr
      simp [resolveStepParameters, href, hc, hr]
    · intro hr
      simp [resolveStepParameters, href, hc, hr]

/-- C3 amended witness: the `execution_context` lookup wins at a concrete
published step result. -/
theorem C3_parameter_resolution_order_witness :
    isParamRef "${step_1_result}" = true ∧
    resolveStepParameters [("step_1_result", PyVal.vdata 5)] []
        [("content", PyVal.vstr "${step_1_result}")] =
      [("content", PyVal.vdata 5)] :=
  ⟨by decide,
   (C3_parameter_resolution_order [("step_1_result", PyVal.vdata 5)] []
       "content" "${step_1_result}" (by decide)).1
     ("step_1_result", PyVal.vdata 5) (by decide)⟩

/-- C4: evaluation of `_execute_plan` at the failing input.  Without a
skipped predecessor the successful retry does overwrite the failed entry
(first conjunct, the intended behavior); but in a plan whose first step
was skipped for an unsatisfiable dependency, the same `retry_once`
recovery indexes `step_results` with the plan position, raises
`IndexError`, and aborts the plan with the failed entry still in place —
the successful retry never overwrites it. -/
theorem C4_retry_overwrite_indexerror :
    ((executePlan failThenSucceed retryOnlyPlan []).aborted = false ∧
     (executePlan failThenSucceed retryOnlyPlan []).state.step_results.map
        (fun r => r.success) = [true] ∧
     (executePlan failThenSucceed retryOnlyPlan []).recovery_actions =
        ["SUCCESS: Retry of step 2 succeeded"] ∧
     (executePlan failThenSucceed retryOnlyPlan []).completed_steps = 1) ∧
    ((executePlan failThenSucceed skipThenRetryPlan []).aborted = true ∧
     (executePlan failThenSucceed skipThenRetryPlan []).state.step_results.map
        (fun r => r.success) = [false] ∧
     (executePlan failThenSucceed skipThenRetryPlan []).recovery_actions = [] ∧
     (executePlan failThenSucceed skipThenRetryPlan []).completed_steps = 0) := by
  decide

/-- Helper: the `tools_info` component of the refresh body equals the
spec-side fresh snapshot, one server's tools at a time. -/
theorem toolFold_fst (srv : ServerSnapshot) (tools : List String) :
    ∀ acc : List AvailableToolInfo × List (String × AvailableToolInfo),
      (tools.foldl (toolFold srv) acc).1 = acc.1 ++ tools.map (adaptTool srv) := by
  induction tools with
  | nil => intro acc; simp
  | cons t ts ih =>
    intro acc
    rw [List.foldl_cons, ih]
    simp [toolFold]

/-- Helper: `dictInsert` never loses a key. -/
theorem dictInsert_keys {β : Type} (l : List (String × β)) (k : String) (v : β)
    (k0 : String) (h : k0 ∈ l.map Prod.fst) :
    k0 ∈ (dictInsert l k v).map Prod.fst := by
  unfold dictInsert
  split
  · have : (l.map (fun p => if p.1 == k then (k, v) else p)).map Prod.fst =
        l.map Prod.fst := by
      rw [List.map_map]
      apply List.map_congr_left
      intro p _
      show (if (p.1 == k) = true then (k, v) else p).1 = p.1
      by_cases hp : (p.1 == k) = true
      · rw [if_pos hp]
        exact (eq_of_beq hp).symm
      · rw [if_neg hp]
    rw [this]
    exact h
  · rw [List.map_append]
    exact List.mem_append_left _ h

/-- Helper: the inner tool loop never loses a cache key. -/
theorem toolFold_keys (srv : ServerSnapshot) (tools : List String) :
    ∀ acc : List AvailableToolInfo × List (String × AvailableToolInfo),
      ∀ k0, k0 ∈ acc.2.map Prod.fst →
        k0 ∈ (tools.foldl (toolFold srv) acc).2.map Prod.fst := by
  induction tools with
  | nil => intro acc k0 h; exact h
  | cons t ts ih =>
    intro acc k0 h
    rw [List.foldl_cons]
    exact ih _ k0 (dictInsert_keys _ _ _ _ h)

/-- Helper: the refresh loop over all servers returns exactly the fresh
snapshot and never loses a cache key. -/
theorem serverFold_spec (servers : List ServerSnapshot) :
    ∀ acc : List AvailableToolInfo × List (String × AvailableToolInfo),
      ((servers.foldl serverFold acc).1 =
        servers.foldl
          (fun a srv =>
            if srv.connected then a ++ srv.tools.map (adaptTool srv) else a)
          acc.1) ∧
      (∀ k0, k0 ∈ acc.2.map Prod.fst →
        k0 ∈ (servers.foldl serverFold acc).2.map Prod.fst) := by
  induction servers with
  | nil => intro acc; exact ⟨rfl, fun _ h => h⟩
  | cons srv rest ih =>
    intro acc
    rw [List.foldl_cons, List.foldl_cons]
    constructor
    · rw [(ih (serverFold acc srv)).1]
      congr 1
      unfold serverFold
      by_cases hc : srv.connected = true
      · rw [if_pos hc, if_pos hc, toolFold_fst]
      · rw [if_neg hc, if_neg hc]
    · intro k0 h
      apply (ih (serverFold acc srv)).2
      unfold serverFold
      by_cases hc : srv.connected = true
      · rw [if_pos hc]
        exact toolFold_keys srv srv.tools acc k0 h
      · rw [if_neg hc]
        exact h

/-- C9 counterexample: after a forced refresh against a server that no
longer reports `oldtool`, the stale adapter is still in the refreshed
cache — and a subsequent cached call even returns it. -/
theorem C9_stale_adapter_counterexample :
    "oldtool" ∉ serverS1.tools ∧
    "s1:oldtool" ∈
      ((getAvailableTools staleBridge true 1000 [serverS1]).2.1.tool_cache.map
        Prod.fst) ∧
    oldToolInfo ∈
      (getAvailableTools
        (getAvailableTools staleBridge true 1000 [serverS1]).2.1
        false 1001 []).1 := by
  refine ⟨by decide, by decide, by decide⟩

/-- C9 amended: `get_available_tools` without refresh serves the cached
snapshot unchanged — no transport round-trip — while the cache is
non-empty and younger than the 300 s TTL; a forced refresh consults the
transport, returns exactly the fresh snapshot of the connected servers'
tools, and stamps the cache time, but previously cached keys are never
discarded, so adapters of tools no longer reported remain in the cache. -/
theorem C9_cache_ttl_and_refresh (st : BridgeState) (now : Nat)
    (servers : List ServerSnapshot) (hne : st.tool_cache ≠ [])
    (hyoung : now - st.last_cache_update < cacheTtlSeconds) :
    (getAvailableTools st false now servers =
      (st.tool_cache.map (fun p => p.2), st, false)) ∧
    ((getAvailableTools st true now servers).1 = freshToolList servers ∧
     (getAvailableTools st true now servers).2.2 = true ∧
     (getAvailableTools st true now servers).2.1.last_cache_update = now ∧
     ∀ k0 ∈ st.tool_cache.map Prod.fst,
       k0 ∈ (getAvailableTools st true now servers).2.1.tool_cache.map
         Prod.fst) := by
  constructor
  · unfold getAvailableTools
    rw [if_pos]
    exact ⟨by simp, hne, hyoung⟩
  · have hneg : ¬(¬(true : Bool) = true ∧ st.tool_cache ≠ [] ∧
        now - st.last_cache_update < cacheTtlSeconds) := by
      intro h
      exact h.1 rfl
    refine ⟨?_, ?_, ?_, ?_⟩
    · unfold getAvailableTools
      rw [if_neg hneg]
      show (getAvailableToolsImpl servers st.tool_cache now).1 = _
      unfold getAvailableToolsImpl freshToolList
      exact (serverFold_spec servers ([], st.tool_cache)).1
    · unfold getAvailableTools
      rw [if_neg hneg]
    · unfold getAvailableTools
      rw [if_neg hneg]
      rfl
    · intro k0 hk
      unfold getAvailableTools
      rw [if_neg hneg]
      show k0 ∈ (getAvailableToolsImpl servers st.tool_cache now).2.tool_cache.map
        Prod.fst
      unfold getAvailableToolsImpl
      exact (serverFold_spec servers ([], st.tool_cache)).2 k0 hk

/-- C9 amended witness: the hypotheses and the cached-path conclusion at
the concrete stale bridge. -/
theorem C9_cache_ttl_and_refresh_witness :
    (staleBridge.tool_cache ≠ [] ∧
     1 - staleBridge.last_cache_update < cacheTtlSeconds) ∧
    getAvailableTools staleBridge false 1 [serverS1] =
      (staleBridge.tool_cache.map (fun p => p.2), staleBridge, false) :=
  ⟨⟨by decide, by decide⟩,
   (C9_cache_ttl_and_refresh staleBridge 1 [serverS1] (by decide) (by decide)).1⟩

/-- Helper: with duplicate-free ids, `find?` by id returns the task
itself. -/
theorem find?_id_self (l : List Task) (hnd : (l.map Task.id).Nodup) :
    ∀ t ∈ l, l.find? (fun x => x.id == t.id) = some t := by
  induction l with
  | nil => intro t ht; exact absurd ht (List.not_mem_nil t)
  | cons a l ih =>
    intro t ht
    rw [List.map_cons] at hnd
    have hnd' := List.nodup_cons.mp hnd
    by_cases ha : (a.id == t.id) = true
    · rw [@List.find?_cons_of_pos Task (fun x => x.id == t.id) a l ha]
      rcases List.mem_cons.mp ht with h | h
      · rw [h]
      · exact absurd (eq_of_beq ha ▸ List.mem_map_of_mem Task.id h) hnd'.1
    · rw [@List.find?_cons_of_neg Task (fun x => x.id == t.id) a l ha]
      rcases List.mem_cons.mp ht with h | h
      · exact absurd (by rw [h]) (fun hh => ha (beq_iff_eq.mpr hh))
      · exact ih hnd'.2 t h

/-- Helper: with duplicate-free ids, the `task_map` lookup of a member
task's id yields that task. -/
theorem taskMapOf_self (tasks : List Task) (hnd : (tasks.map Task.id).Nodup)
    (t : Task) (ht : t ∈ tasks) : taskMapOf tasks t.id = some t := by
  unfold taskMapOf
  apply find?_id_self
  · rw [List.map_reverse]
    exact List.nodup_reverse.mpr hnd
  · exact List.mem_reverse.mpr ht

/-- Helper: the `task_map` lookup succeeds exactly on the ids of the
tasks. -/
theorem taskMapOf_isSome_iff (tasks : List Task) (tid : String) :
    (taskMapOf tasks tid).isSome = true ↔ tid ∈ tasks.map Task.id := by
  unfold taskMapOf
  rw [List.find?_isSome]
  constructor
  · rintro ⟨x, hx, hpx⟩
    exact eq_of_beq hpx ▸
      List.mem_map_of_mem Task.id (List.mem_reverse.mp hx)
  · intro h
    obtain ⟨t, ht, hid⟩ := List.mem_map.mp h
    exact ⟨t, List.mem_reverse.mpr ht, beq_iff_eq.mpr hid⟩

/-- Helper: a successful `task_map` lookup returns a member task carrying
the looked-up id. -/
theorem taskMapOf_mem (tasks : List Task) (tid : String) (task : Task)
    (h : taskMapOf tasks tid = some task) : task ∈ tasks ∧ task.id = tid := by
  unfold taskMapOf at h
  have h2 := List.find?_some h
  exact ⟨List.mem_reverse.mp (List.mem_of_find?_eq_some h), eq_of_beq h2⟩

/-- Helper: the descending key comparator is total. -/
theorem keyGE_total : ∀ a b : Task, (keyGE a b || keyGE b a) = true := by
  intro a b
  unfold keyGE
  rcases Nat.lt_trichotomy a.priority b.priority with h | h | h
  · simp [h, Nat.not_lt.mpr (Nat.le_of_lt h)]
  · rcases Nat.le_total a.created_at b.created_at with hc | hc
    · simp [h, hc]
    · simp [h, hc]
  · simp [h]

/-- Helper: the descending key comparator is transitive. -/
theorem keyGE_trans : ∀ a b c : Task,
    keyGE a b = true → keyGE b c = true → keyGE a c = true := by
  intro a b c hab hbc
  unfold keyGE at *
  rcases Bool.or_eq_true_iff.mp hab with h1 | h1 <;>
    rcases Bool.or_eq_true_iff.mp hbc with h2 | h2
  · have h1' := of_decide_eq_true h1
    have h2' := of_decide_eq_true h2
    simp [Nat.lt_trans h2' h1']
  · obtain ⟨h2a, h2b⟩ := Bool.and_eq_true_iff.mp h2
    have h1' := of_decide_eq_true h1
    have h2a' : c.priority = b.priority := beq_iff_eq.mp h2a
    simp [h2a' ▸ h1']
  · obtain ⟨h1a, h1b⟩ := Bool.and_eq_true_iff.mp h1
    have h2' := of_decide_eq_true h2
    have h1a' : b.priority = a.priority := beq_iff_eq.mp h1a
    simp [h1a' ▸ h2']
  · obtain ⟨h1a, h1b⟩ := Bool.and_eq_true_iff.mp h1
    obtain ⟨h2a, h2b⟩ := Bool.and_eq_true_iff.mp h2
    have h1a' : b.priority = a.priority := beq_iff_eq.mp h1a
    have h2a' : c.priority = b.priority := beq_iff_eq.mp h2a
    have h1b' := of_decide_eq_true h1b
    have h2b' := of_decide_eq_true h2b
    rw [Bool.or_eq_true_iff]
    right
    rw [Bool.and_eq_true_iff]
    exact ⟨beq_iff_eq.mpr (h2a'.trans h1a'),
      decide_eq_true (Nat.le_trans h2b' h1b')⟩

/-- Helper: the comparator holds reflexively. -/
theorem keyGE_refl (a : Task) : keyGE a a = true := by
  unfold keyGE
  simp

/-- Helper: a strictly greater `(priority, created_at)` key refutes the
comparator in the opposite direction. -/
theorem keyGE_false_of_strict (t u : Task)
    (h : u.priority < t.priority ∨
      (u.priority = t.priority ∧ u.created_at < t.created_at)) :
    keyGE u t = false := by
  unfold keyGE
  rcases h with h | ⟨h1, h2⟩
  · simp [Nat.not_lt.mpr (Nat.le_of_lt h), Nat.ne_of_gt h]
  · simp [h1, Nat.not_lt.mpr (Nat.le_of_eq h1.symm), Nat.not_le.mpr h2]

/-- Helper: pushing a fresh id onto the recursion stack shrinks the count
of unstacked domain ids by exactly one. -/
theorem length_filter_cons_mem (dom : List String) (hnd : dom.Nodup)
    (tid : String) (temp : List String) (hdom : tid ∈ dom) (htemp : tid ∉ temp) :
    (dom.filter (fun x => x ∉ tid :: temp)).length + 1 =
      (dom.filter (fun x => x ∉ temp)).length := by
  induction dom with
  | nil => exact absurd hdom (List.not_mem_nil tid)
  | cons a l ih =>
    have hnd' := List.nodup_cons.mp hnd
    by_cases ha : a = tid
    · subst ha
      have h1 : (decide (a ∉ a :: temp)) = false := by
        simp
      have h2 : (decide (a ∉ temp)) = true := by
        simpa using htemp
      have hcong : l.filter (fun x => x ∉ a :: temp) =
          l.filter (fun x => x ∉ temp) := by
        apply List.filter_congr
        intro x hx
        have hxa : x ≠ a := fun hh => hnd'.1 (hh ▸ hx)
        simp [List.mem_cons, hxa]
      rw [List.filter_cons, List.filter_cons, h1, h2, if_neg (by decide),
        if_pos (by decide), hcong, List.length_cons]
    · have htl : tid ∈ l := by
        rcases List.mem_cons.mp hdom with h | h
        · exact absurd h.symm ha
        · exact h
      by_cases hat : a ∈ temp
      · have h1 : (decide (a ∉ tid :: temp)) = false := by
          simp [List.mem_cons, hat]
        have h2 : (decide (a ∉ temp)) = false := by
          simp [hat]
        rw [List.filter_cons, List.filter_cons, h1, h2]
        simpa using ih hnd'.2 htl
      · have h1 : (decide (a ∉ tid :: temp)) = true := by
          simp [List.mem_cons, ha, hat]
        have h2 : (decide (a ∉ temp)) = true := by
          simp [hat]
        rw [List.filter_cons, List.filter_cons, h1, h2]
        simp only [if_pos trivial, List.length_cons]
        have := ih hnd'.2 htl
        simp only [List.length_cons] at this ⊢
        omega

/-- Helper: `visitPost` is reflexive. -/
theorem visitPost_rfl (tm : String → Option Task) (s : VisitState)
    (h : goodState tm s) : visitPost tm s s :=
  ⟨rfl, h, fun _ hx => hx, ⟨[], (List.append_nil s.order).symm⟩,
   fun _ he => he, fun _ _ hx => hx⟩

/-- Helper: `visitPost` composes. -/
theorem visitPost_trans (tm : String → Option Task) (s r r2 : VisitState)
    (h1 : visitPost tm s r) (h2 : visitPost tm r r2) : visitPost tm s r2 := by
  obtain ⟨t1, g1, v1, ⟨l1, o1⟩, d1, k1⟩ := h1
  obtain ⟨t2, g2, v2, ⟨l2, o2⟩, d2, k2⟩ := h2
  refine ⟨t2.trans t1, g2, fun x hx => v2 x (v1 x hx),
    ⟨l1 ++ l2, by rw [o2, o1, List.append_assoc]⟩,
    fun e he => d2 e (d1 e he), ?_⟩
  intro x hx hxo
  have hxr : x ∉ r.order := k1 x hx hxo
  have hxt : x ∈ r.temp := t1 ▸ hx
  exact k2 x hxt hxr

/-- Helper: recording one more dropped edge preserves the invariant and is
a `visitPost` step. -/
theorem goodState_dropped_append (tm : String → Option Task) (s : VisitState)
    (e : String × String) (h : goodState tm s) :
    goodState tm { s with dropped := s.dropped ++ [e] } ∧
    visitPost tm s { s with dropped := s.dropped ++ [e] } := by
  obtain ⟨h1, h2, h3, h4, h5, h6, h7⟩ := h
  have hg : goodState tm { s with dropped := s.dropped ++ [e] } := by
    refine ⟨h1, h2, h3, h4, h5, h6, ?_⟩
    intro tid task htm hto d hd hds
    rcases h7 tid task htm hto d hd hds with hh | hh
    · exact Or.inl (List.mem_append_left _ hh)
    · exact Or.inr hh
  exact ⟨hg, rfl, hg, fun _ hx => hx, ⟨[], (List.append_nil s.order).symm⟩,
    fun e2 he2 => List.mem_append_left _ he2, fun _ _ hx => hx⟩

/-- Helper: the closing step of one DFS visit — popping the stack, marking
the id visited and appending it to the order — restores the stack and
maintains every invariant, provided every resolvable dependency of the id
was either emitted or recorded as dropped during the dependency loop. -/
theorem visit_finish (tm : String → Option Task) (tid : String)
    (s s2 : VisitState)
    (hgs : goodState tm s)
    (h1 : tid ∉ s.temp) (h2 : tid ∉ s.visited)
    (hsome : (tm tid).isSome = true)
    (htemp : s2.temp = tid :: s.temp)
    (hgs2 : goodState tm s2)
    (hvis : ∀ x ∈ s.visited, x ∈ s2.visited)
    (hord : ∃ l, s2.order = s.order ++ l)
    (hdrop : ∀ e ∈ s.dropped, e ∈ s2.dropped)
    (hstack : ∀ x ∈ tid :: s.temp, x ∉ s.order → x ∉ s2.order)
    (hdeps : ∀ task, tm tid = some task → ∀ d ∈ task.dependencies,
        (tm d).isSome = true → d ∈ s2.visited ∨ (tid, d) ∈ s2.dropped) :
    visitPost tm s
      { s2 with
        temp := s2.temp.erase tid
        visited := tid :: s2.visited
        order := s2.order ++ [tid] } := by
  obtain ⟨g1, g2, g3, g4, g5, g6, g7⟩ := hgs2
  have htid_not_sord : tid ∉ s.order := fun h => h2 ((hgs.2.1 tid).mpr h)
  have htid_not_ord : tid ∉ s2.order :=
    hstack tid (List.mem_cons_self tid s.temp) htid_not_sord
  have htemp_final : (s2.temp.erase tid) = s.temp := by
    rw [htemp]
    exact List.erase_cons_head tid s.temp
  refine ⟨htemp_final, ?_, ?_, ?_, ?_, ?_⟩
  · -- goodState of the closed state
    refine ⟨?_, ?_, ?_, ?_, ?_, ?_, ?_⟩
    · -- order Nodup
      rw [List.nodup_append]
      exact ⟨g1, List.nodup_singleton tid,
        List.disjoint_singleton.mpr htid_not_ord⟩
    · -- visited ↔ order
      intro x
      rw [List.mem_cons, List.mem_append, List.mem_singleton]
      constructor
      · rintro (h | h)
        · exact Or.inr h
        · exact Or.inl ((g2 x).mp h)
      · rintro (h | h)
        · exact Or.inr ((g2 x).mpr h)
        · exact Or.inl h
    · -- stack ids are mapped
      intro x hx
      exact g3 x (by rw [htemp_final] at hx; rw [htemp]; exact List.mem_cons_of_mem tid hx)
    · -- stack Nodup
      rw [htemp_final]
      exact hgs.2.2.2.1
    · -- order ids are mapped
      intro x hx
      rcases List.mem_append.mp hx with h | h
      · exact g5 x h
      · rw [List.mem_singleton.mp h]
        exact hsome
    · -- stack and order disjoint
      intro x hx
      rw [htemp_final] at hx
      intro hxo
      rcases List.mem_append.mp hxo with h | h
      · exact g6 x (by rw [htemp]; exact List.mem_cons_of_mem tid hx) h
      · rw [List.mem_singleton.mp h] at hx
        exact h1 hx
    · -- precedence
      intro tid' task' htm' hto' d hd hds
      rcases List.mem_append.mp hto' with hmem | hmem
      · rcases g7 tid' task' htm' hmem d hd hds with hh | hh
        · exact Or.inl hh
        · refine Or.inr ⟨List.mem_append_left _ hh.1, ?_⟩
          rw [List.indexOf_append_of_mem hh.1,
            List.indexOf_append_of_mem hmem]
          exact hh.2
      · have htid' : tid' = tid := List.mem_singleton.mp hmem
        subst htid'
        rcases hdeps task' htm' d hd hds with hh | hh
        · have hdo : d ∈ s2.order := (g2 d).mp hh
          refine Or.inr ⟨List.mem_append_left _ hdo, ?_⟩
          rw [List.indexOf_append_of_mem hdo,
            List.indexOf_append_of_not_mem htid_not_ord]
          have := List.indexOf_lt_length.mpr hdo
          omega
        · exact Or.inl hh
  · -- visited grows
    intro x hx
    exact List.mem_cons_of_mem tid (hvis x hx)
  · -- order is appended to
    obtain ⟨l, hl⟩ := hord
    exact ⟨l ++ [tid], by rw [hl, List.append_assoc]⟩
  · -- dropped grows
    exact hdrop
  · -- unemitted stack ids stay unemitted
    intro x hx hxo
    have hxn : x ∉ s2.order := hstack x (List.mem_cons_of_mem tid hx) hxo
    intro hmem
    rcases List.mem_append.mp hmem with h | h
    · exact hxn h
    · rw [List.mem_singleton.mp h] at hx
      exact h1 hx

/-- Helper: the dependency loop of one DFS visit.  Relative to the loop's
start state it is a `visitPost` step, and each resolvable dependency ends
up either visited or recorded as a dropped edge of `tid`. -/
theorem visit_fold (tm : String → Option Task) (m : Nat) (tid : String)
    (T : List String)
    (hvisit : ∀ d acc, goodState tm acc → (tm d).isSome = true →
      acc.temp = T →
      visitPost tm acc (visit tm m d acc) ∧
      (d ∈ (visit tm m d acc).visited ∨ d ∈ acc.temp)) :
    ∀ (deps : List String) (acc : VisitState), goodState tm acc →
      acc.temp = T →
      visitPost tm acc
        (deps.foldl (fun acc2 depId =>
          if (tm depId).isSome then
            if depId ∈ acc2.temp then
              { acc2 with dropped := acc2.dropped ++ [(tid, depId)] }
            else visit tm m depId acc2
          else acc2) acc) ∧
      (∀ d ∈ deps, (tm d).isSome = true →
        d ∈ (deps.foldl (fun acc2 depId =>
          if (tm depId).isSome then
            if depId ∈ acc2.temp then
              { acc2 with dropped := acc2.dropped ++ [(tid, depId)] }
            else visit tm m depId acc2
          else acc2) acc).visited ∨
        (tid, d) ∈ (deps.foldl (fun acc2 depId =>
          if (tm depId).isSome then
            if depId ∈ acc2.temp then
              { acc2 with dropped := acc2.dropped ++ [(tid, depId)] }
            else visit tm m depId acc2
          else acc2) acc).dropped) := by
  intro deps
  induction deps with
  | nil =>
    intro acc hacc _
    exact ⟨visitPost_rfl tm acc hacc,
      fun d hd => absurd hd (List.not_mem_nil d)⟩
  | cons d ds ihd =>
    intro acc hacc htacc
    rw [List.foldl_cons]
    by_cases hd : (tm d).isSome = true
    · rw [if_pos hd]
      by_cases hdt : d ∈ acc.temp
      · rw [if_pos hdt]
        obtain ⟨hg', hp'⟩ := goodState_dropped_append tm acc (tid, d) hacc
        obtain ⟨hpost, hheads⟩ :=
          ihd { acc with dropped := acc.dropped ++ [(tid, d)] } hg' htacc
        refine ⟨visitPost_trans tm _ _ _ hp' hpost, ?_⟩
        intro d2 hd2 hd2some
        rcases List.mem_cons.mp hd2 with h | h
        · subst h
          right
          exact hpost.2.2.2.2.1 (tid, d2)
            (List.mem_append_right _ (List.mem_singleton_self _))
        · exact hheads d2 h hd2some
      · rw [if_neg hdt]
        obtain ⟨hpostd, hdin⟩ := hvisit d acc hacc hd htacc
        obtain ⟨hpost, hheads⟩ :=
          ihd (visit tm m d acc) hpostd.2.1 (hpostd.1.trans htacc)
        refine ⟨visitPost_trans tm _ _ _ hpostd hpost, ?_⟩
        intro d2 hd2 hd2some
        rcases List.mem_cons.mp hd2 with h | h
        · subst h
          left
          have hv : d2 ∈ (visit tm m d2 acc).visited := by
            rcases hdin with hh | hh
            · exact hh
            · exact absurd hh hdt
          exact hpost.2.2.1 d2 hv
        · exact hheads d2 h hd2some
    · rw [if_neg hd]
      obtain ⟨hpost, hheads⟩ := ihd acc hacc htacc
      refine ⟨hpost, ?_⟩
      intro d2 hd2 hd2some
      rcases List.mem_cons.mp hd2 with h | h
      · subst h
        exact absurd hd2some hd
      · exact hheads d2 h hd2some

/-- Helper: the master invariant of `visit` — with enough fuel (more than
the number of mapped ids not yet on the stack), a visit of a mapped id is
a `visitPost` step and leaves the id visited (unless it was already on the
recursion stack, the dropped-cycle case). -/
theorem visit_master (tm : String → Option Task) (dom : List String)
    (hdom : ∀ x, (tm x).isSome = true → x ∈ dom) (hnd : dom.Nodup) :
    ∀ fuel : Nat, ∀ tid : String, ∀ s : VisitState,
      goodState tm s → (tm tid).isSome = true →
      (dom.filter (fun x => x ∉ s.temp)).length < fuel →
      visitPost tm s (visit tm fuel tid s) ∧
      (tid ∈ (visit tm fuel tid s).visited ∨ tid ∈ s.temp) := by
  intro fuel
  induction fuel with
  | zero =>
    intro tid s _ _ hlt
    exact absurd hlt (Nat.not_lt_zero _)
  | succ m ih =>
    intro tid s hgs hsome hlt
    by_cases h1 : tid ∈ s.temp
    · have hv : visit tm (m + 1) tid s = s := by
        simp only [visit]
        rw [if_pos h1]
      rw [hv]
      exact ⟨visitPost_rfl tm s hgs, Or.inr h1⟩
    · by_cases h2 : tid ∈ s.visited
      · have hv : visit tm (m + 1) tid s = s := by
          simp only [visit]
          rw [if_neg h1, if_pos h2]
        rw [hv]
        exact ⟨visitPost_rfl tm s hgs, Or.inl h2⟩
      · have hgs1 : goodState tm { s with temp := tid :: s.temp } := by
          obtain ⟨a1, a2, a3, a4, a5, a6, a7⟩ := hgs
          refine ⟨a1, a2, ?_, List.nodup_cons.mpr ⟨h1, a4⟩, a5, ?_, a7⟩
          · intro x hx
            rcases List.mem_cons.mp hx with h | h
            · exact h ▸ hsome
            · exact a3 x h
          · intro x hx
            rcases List.mem_cons.mp hx with h | h
            · subst h
              exact fun ho => h2 ((a2 x).mpr ho)
            · exact a6 x h
        have hfilter : (dom.filter (fun x => x ∉ tid :: s.temp)).length < m := by
          have heq := length_filter_cons_mem dom hnd tid s.temp
            (hdom tid hsome) h1
          omega
        have hvisit_ih : ∀ d acc, goodState tm acc → (tm d).isSome = true →
            acc.temp = tid :: s.temp →
            visitPost tm acc (visit tm m d acc) ∧
            (d ∈ (visit tm m d acc).visited ∨ d ∈ acc.temp) := by
          intro d acc hacc hd htacc
          apply ih d acc hacc hd
          rw [htacc]
          exact hfilter
        cases htm : tm tid with
        | none =>
          rw [htm] at hsome
          exact absurd hsome (by simp)
        | some task =>
          obtain ⟨hfoldpost, hheads⟩ := visit_fold tm m tid (tid :: s.temp)
            hvisit_ih task.dependencies { s with temp := tid :: s.temp }
            hgs1 rfl
          have hvu : visit tm (m + 1) tid s =
              { (task.dependencies.foldl (fun acc2 depId =>
                  if (tm depId).isSome then
                    if depId ∈ acc2.temp then
                      { acc2 with dropped := acc2.dropped ++ [(tid, depId)] }
                    else visit tm m depId acc2
                  else acc2) { s with temp := tid :: s.temp }) with
                temp := (task.dependencies.foldl (fun acc2 depId =>
                  if (tm depId).isSome then
                    if depId ∈ acc2.temp then
                      { acc2 with dropped := acc2.dropped ++ [(tid, depId)] }
                    else visit tm m depId acc2
                  else acc2) { s with temp := tid :: s.temp }).temp.erase tid
                visited := tid :: (task.dependencies.foldl (fun acc2 depId =>
                  if (tm depId).isSome then
                    if depId ∈ acc2.temp then
                      { acc2 with dropped := acc2.dropped ++ [(tid, depId)] }
                    else visit tm m depId acc2
                  else acc2) { s with temp := tid :: s.temp }).visited
                order := (task.dependencies.foldl (fun acc2 depId =>
                  if (tm depId).isSome then
                    if depId ∈ acc2.temp then
                      { acc2 with dropped := acc2.dropped ++ [(tid, depId)] }
                    else visit tm m depId acc2
                  else acc2) { s with temp := tid :: s.temp }).order ++ [tid] } := by
            simp only [visit]
            rw [if_neg h1, if_neg h2, htm]
          rw [hvu]
          constructor
          · apply visit_finish tm tid s _ hgs h1 h2 hsome
            · exact hfoldpost.1
            · exact hfoldpost.2.1
            · exact hfoldpost.2.2.1
            · exact hfoldpost.2.2.2.1
            · exact hfoldpost.2.2.2.2.1
            · exact hfoldpost.2.2.2.2.2
            · intro task' htm' d hd hds
              rw [htm] at htm'
              cases htm'
              exact hheads d hd hds
          · exact Or.inl (List.mem_cons_self _ _)

/-- Helper: the top-level loop of `_optimize_execution_order` over the
pre-sorted tasks, starting from an empty recursion stack: it is a
`visitPost` step and leaves every mapped root visited. -/
theorem visit_toplevel (tm : String → Option Task) (dom : List String)
    (hdom : ∀ x, (tm x).isSome = true → x ∈ dom) (hnd : dom.Nodup)
    (fuel : Nat) (hfuel : dom.length < fuel) :
    ∀ (ts : List Task) (s : VisitState), goodState tm s → s.temp = [] →
      (∀ t ∈ ts, (tm t.id).isSome = true) →
      visitPost tm s (ts.foldl
        (fun s2 t => if t.id ∈ s2.visited then s2 else visit tm fuel t.id s2)
        s) ∧
      (∀ t ∈ ts, t.id ∈ (ts.foldl
        (fun s2 t => if t.id ∈ s2.visited then s2 else visit tm fuel t.id s2)
        s).visited) := by
  intro ts
  induction ts with
  | nil =>
    intro s hgs _ _
    exact ⟨visitPost_rfl tm s hgs, fun t ht => absurd ht (List.not_mem_nil t)⟩
  | cons t ts iht =>
    intro s hgs htemp hts
    rw [List.foldl_cons]
    by_cases hv : t.id ∈ s.visited
    · rw [if_pos hv]
      obtain ⟨hpost, hmem⟩ := iht s hgs htemp
        (fun u hu => hts u (List.mem_cons_of_mem t hu))
      refine ⟨hpost, ?_⟩
      intro u hu
      rcases List.mem_cons.mp hu with h | h
      · subst h
        exact hpost.2.2.1 u.id hv
      · exact hmem u h
    · rw [if_neg hv]
      have hflt : (dom.filter (fun x => x ∉ s.temp)).length < fuel := by
        rw [htemp]
        have hfe : dom.filter (fun x => x ∉ ([] : List String)) = dom :=
          List.filter_eq_self.mpr (fun a _ => by simp)
        rw [hfe]
        exact hfuel
      obtain ⟨hpostv, hvin⟩ := visit_master tm dom hdom hnd fuel t.id s hgs
        (hts t (List.mem_cons_self t ts)) hflt
      have htin : t.id ∈ (visit tm fuel t.id s).visited := by
        rcases hvin with hh | hh
        · exact hh
        · rw [htemp] at hh
          exact absurd hh (List.not_mem_nil t.id)
      obtain ⟨hpost, hmem⟩ := iht (visit tm fuel t.id s) hpostv.2.1
        (hpostv.1.trans htemp)
        (fun u hu => hts u (List.mem_cons_of_mem t hu))
      refine ⟨visitPost_trans tm _ _ _ hpostv hpost, ?_⟩
      intro u hu
      rcases List.mem_cons.mp hu with h | h
      · subst h
        exact hpost.2.2.1 u.id htin
      · exact hmem u h

/-- C1: for every task list with duplicate-free ids, the computed
`execution_order` is a topological sort after cycle repair: every task id
appears exactly once, the order contains only task ids, every resolvable
dependency edge that was not dropped as a cycle edge points backwards in
the order, and on the concrete cycle A→B→A the back-edge B→A is dropped
while both tasks still appear. -/
theorem C1_execution_order_topological (tasks : List Task)
    (hids : (tasks.map Task.id).Nodup) :
    ((∀ t ∈ tasks, (optimizeExecutionOrder tasks).1.count t.id = 1) ∧
     (∀ x ∈ (optimizeExecutionOrder tasks).1, x ∈ tasks.map Task.id) ∧
     (∀ t ∈ tasks, ∀ d ∈ t.dependencies, d ∈ tasks.map Task.id →
       (t.id, d) ∉ (optimizeExecutionOrder tasks).2 →
       d ∈ (optimizeExecutionOrder tasks).1 ∧
       (optimizeExecutionOrder tasks).1.indexOf d <
         (optimizeExecutionOrder tasks).1.indexOf t.id)) ∧
    optimizeExecutionOrder [cycleTaskA, cycleTaskB] =
      (["B", "A"], [("B", "A")]) := by
  have hsortc : [cycleTaskA, cycleTaskB].mergeSort keyGE =
      [cycleTaskA, cycleTaskB] := by
    simp [List.mergeSort, keyGE, cycleTaskA, cycleTaskB]
  have hconc : optimizeExecutionOrder [cycleTaskA, cycleTaskB] =
      (["B", "A"], [("B", "A")]) := by
    unfold optimizeExecutionOrder
    rw [hsortc]
    decide
  refine ⟨?_, hconc⟩
  have hperm := List.mergeSort_perm tasks keyGE
  have hdom : ∀ x, ((taskMapOf tasks) x).isSome = true →
      x ∈ (tasks.map Task.id).dedup := by
    intro x hx
    exact List.mem_dedup.mpr ((taskMapOf_isSome_iff tasks x).mp hx)
  have hnd : (tasks.map Task.id).dedup.Nodup := List.nodup_dedup _
  have hfuel : (tasks.map Task.id).dedup.length < tasks.length + 1 := by
    have h1 := (List.dedup_sublist (tasks.map Task.id)).length_le
    rw [List.length_map] at h1
    omega
  have hinit : goodState (taskMapOf tasks)
      { visited := [], temp := [], order := [], dropped := [] } := by
    refine ⟨List.nodup_nil, ?_, ?_, List.nodup_nil, ?_, ?_, ?_⟩
    · intro x
      constructor
      · intro h
        exact absurd h (List.not_mem_nil x)
      · intro h
        exact absurd h (List.not_mem_nil x)
    · intro x hx
      exact absurd hx (List.not_mem_nil x)
    · intro x hx
      exact absurd hx (List.not_mem_nil x)
    · intro x hx
      exact absurd hx (List.not_mem_nil x)
    · intro tid task _ hto
      exact absurd hto (List.not_mem_nil tid)
  have hts : ∀ t ∈ tasks.mergeSort keyGE,
      ((taskMapOf tasks) t.id).isSome = true := by
    intro t ht
    exact (taskMapOf_isSome_iff tasks t.id).mpr
      (List.mem_map_of_mem Task.id (hperm.mem_iff.mp ht))
  obtain ⟨hpost, hmem⟩ := visit_toplevel (taskMapOf tasks)
    (tasks.map Task.id).dedup hdom hnd (tasks.length + 1) hfuel
    (tasks.mergeSort keyGE)
    { visited := [], temp := [], order := [], dropped := [] }
    hinit rfl hts
  have hgsF := hpost.2.1
  have hordF : ∀ t ∈ tasks, t.id ∈ (optimizeExecutionOrder tasks).1 := by
    intro t ht
    exact (hgsF.2.1 t.id).mp (hmem t (hperm.mem_iff.mpr ht))
  refine ⟨?_, ?_, ?_⟩
  · intro t ht
    exact List.count_eq_one_of_mem hgsF.1 (hordF t ht)
  · intro x hx
    exact (taskMapOf_isSome_iff tasks x).mp (hgsF.2.2.2.2.1 x hx)
  · intro t ht d hd hdmap hdrop
    have htm_t : taskMapOf tasks t.id = some t := taskMapOf_self tasks hids t ht
    have hdsome : ((taskMapOf tasks) d).isSome = true :=
      (taskMapOf_isSome_iff tasks d).mpr hdmap
    rcases hgsF.2.2.2.2.2.2 t.id t htm_t (hordF t ht) d hd hdsome with hh | hh
    · exact absurd hh hdrop
    · exact hh

/-- C1 witness: the hypothesis and a projection of the conclusion at the
concrete two-task cycle. -/
theorem C1_execution_order_topological_witness :
    ([cycleTaskA, cycleTaskB].map Task.id).Nodup ∧
    (optimizeExecutionOrder [cycleTaskA, cycleTaskB]).1.count cycleTaskA.id = 1 :=
  ⟨by decide,
   (C1_execution_order_topological [cycleTaskA, cycleTaskB] (by decide)).1.1
     cycleTaskA (List.mem_cons_self _ _)⟩

/-- Helper: visiting a task with no dependencies just emits it. -/
theorem visit_nodep (tm : String → Option Task) (fuel : Nat) (tid : String)
    (s : VisitState) (h1 : tid ∉ s.temp) (h2 : tid ∉ s.visited)
    (hdeps : ∀ task, tm tid = some task → task.dependencies = []) :
    visit tm (fuel + 1) tid s =
      { s with visited := tid :: s.visited, order := s.order ++ [tid] } := by
  simp only [visit]
  rw [if_neg h1, if_neg h2]
  cases htm : tm tid with
  | none =>
    simp [List.erase_cons_head]
  | some task =>
    simp [hdeps task htm, List.erase_cons_head]

/-- Helper: on a dependency-free task list the top-level loop emits the
roots in exactly the pre-sorted order. -/
theorem toplevel_nodep (tm : String → Option Task) (fuel : Nat)
    (hdeps : ∀ tid task, tm tid = some task → task.dependencies = []) :
    ∀ (ts : List Task) (s : VisitState), (ts.map Task.id).Nodup →
      (∀ t ∈ ts, t.id ∉ s.visited) → s.temp = [] →
      ts.foldl (fun s2 t => if t.id ∈ s2.visited then s2
        else visit tm (fuel + 1) t.id s2) s =
      { s with
        visited := (ts.map Task.id).reverse ++ s.visited
        order := s.order ++ ts.map Task.id } := by
  intro ts
  induction ts with
  | nil =>
    intro s _ _ _
    simp
  | cons t ts iht =>
    intro s hnd hvis htemp
    have hnd' : (t.id ∉ ts.map Task.id) ∧ (ts.map Task.id).Nodup := by
      rw [List.map_cons] at hnd
      exact List.nodup_cons.mp hnd
    rw [List.foldl_cons,
      if_neg (hvis t (List.mem_cons_self t ts)),
      visit_nodep tm fuel t.id s (htemp ▸ List.not_mem_nil t.id)
        (hvis t (List.mem_cons_self t ts)) (fun task htm => hdeps t.id task htm),
      iht { s with visited := t.id :: s.visited, order := s.order ++ [t.id] }
        hnd'.2 ?_ htemp]
    · simp [List.append_assoc]
    · intro u hu
      rw [List.mem_cons]
      rintro (h | h)
      · exact hnd'.1 (h ▸ List.mem_map_of_mem Task.id hu)
      · exact hvis u (List.mem_cons_of_mem t hu) h

/-- Helper: in a list sorted by the descending key and with duplicate-free
ids, a strictly greater key means a strictly earlier position. -/
theorem pairwise_key_indexOf (l : List Task) :
    (l.map Task.id).Nodup →
    l.Pairwise (fun a b => keyGE a b = true) →
    ∀ t u : Task, t ∈ l → u ∈ l → keyGE u t = false →
    (l.map Task.id).indexOf t.id < (l.map Task.id).indexOf u.id := by
  induction l with
  | nil =>
    intro _ _ t u ht _ _
    exact absurd ht (List.not_mem_nil t)
  | cons a rest ih =>
    intro hnd hpw t u ht hu hk
    rw [List.map_cons] at hnd ⊢
    have hnd' := List.nodup_cons.mp hnd
    have hpw' := List.pairwise_cons.mp hpw
    by_cases hta : t = a
    · have hu_rest : u ∈ rest := by
        rcases List.mem_cons.mp hu with h | h
        · rw [h, hta] at hk
          rw [keyGE_refl a] at hk
          cases hk
        · exact h
      have huid : a.id ≠ u.id := by
        intro h
        exact hnd'.1 (h ▸ List.mem_map_of_mem Task.id hu_rest)
      rw [hta, List.indexOf_cons_self, List.indexOf_cons_ne _ huid]
      exact Nat.succ_pos _
    · have ht_rest : t ∈ rest := by
        rcases List.mem_cons.mp ht with h | h
        · exact absurd h hta
        · exact h
      have hua : u ≠ a := by
        intro h
        rw [h, hpw'.1 t ht_rest] at hk
        cases hk
      have hu_rest : u ∈ rest := by
        rcases List.mem_cons.mp hu with h | h
        · exact absurd h hua
        · exact h
      have htid : a.id ≠ t.id := by
        intro h
        exact hnd'.1 (h ▸ List.mem_map_of_mem Task.id ht_rest)
      have huid : a.id ≠ u.id := by
        intro h
        exact hnd'.1 (h ▸ List.mem_map_of_mem Task.id hu_rest)
      rw [List.indexOf_cons_ne _ htid, List.indexOf_cons_ne _ huid]
      exact Nat.succ_lt_succ (ih hnd'.2 hpw'.2 t u ht_rest hu_rest hk)

/-- C7 counterexample: two dependency-free tasks of equal priority, the
first created at time 1 and the second at time 2.  The claim predicts the
earlier-created task `"a"` is emitted first; the code emits the
later-created `"b"` first (Python's `reverse=True` flips the `created_at`
tie-break as well). -/
theorem C7_created_at_tie_counterexample :
    earlyTask.priority = lateTask.priority ∧
    earlyTask.created_at < lateTask.created_at ∧
    (optimizeExecutionOrder [earlyTask, lateTask]).1 = ["b", "a"] ∧
    (optimizeExecutionOrder [earlyTask, lateTask]).1.indexOf lateTask.id <
      (optimizeExecutionOrder [earlyTask, lateTask]).1.indexOf earlyTask.id := by
  have hsortc : [earlyTask, lateTask].mergeSort keyGE =
      [lateTask, earlyTask] := by
    simp [List.mergeSort, keyGE, earlyTask, lateTask]
  have hpair : optimizeExecutionOrder [earlyTask, lateTask] =
      (["b", "a"], []) := by
    unfold optimizeExecutionOrder
    rw [hsortc]
    decide
  refine ⟨rfl, by decide, by rw [hpair], by rw [hpair]; decide⟩

/-- C7 amended: among dependency-free tasks the emission order is the
stable descending sort by `(priority, created_at)`: a task whose key is
strictly greater — higher priority, or equal priority and *later*
`created_at` — is emitted strictly earlier.  (The claim's tie-break
direction is reversed: among equal priorities the later-created task comes
first, because Python's single `reverse=True` flips both components.) -/
theorem C7_descending_key_order (tasks : List Task)
    (hnodep : ∀ t ∈ tasks, t.dependencies = [])
    (hids : (tasks.map Task.id).Nodup)
    (t u : Task) (ht : t ∈ tasks) (hu : u ∈ tasks)
    (hkey : u.priority < t.priority ∨
      (u.priority = t.priority ∧ u.created_at < t.created_at)) :
    t.id ∈ (optimizeExecutionOrder tasks).1 ∧
    u.id ∈ (optimizeExecutionOrder tasks).1 ∧
    (optimizeExecutionOrder tasks).1.indexOf t.id <
      (optimizeExecutionOrder tasks).1.indexOf u.id := by
  have hperm := List.mergeSort_perm tasks keyGE
  have hdeps_tm : ∀ tid task, taskMapOf tasks tid = some task →
      task.dependencies = [] := by
    intro tid task htm
    exact hnodep task (taskMapOf_mem tasks tid task htm).1
  have hnodup_sorted : ((tasks.mergeSort keyGE).map Task.id).Nodup :=
    ((hperm.map Task.id).nodup_iff).mpr hids
  have hordeq : (optimizeExecutionOrder tasks).1 =
      (tasks.mergeSort keyGE).map Task.id := by
    show ((tasks.mergeSort keyGE).foldl
        (fun s t => if t.id ∈ s.visited then s
          else visit (taskMapOf tasks) (tasks.length + 1) t.id s)
        { visited := [], temp := [], order := [], dropped := [] }).order = _
    rw [toplevel_nodep (taskMapOf tasks) tasks.length hdeps_tm
      (tasks.mergeSort keyGE)
      { visited := [], temp := [], order := [], dropped := [] }
      hnodup_sorted (fun t _ => List.not_mem_nil t.id) rfl]
    simp
  have hpw := List.sorted_mergeSort keyGE_trans keyGE_total tasks
  have hk : keyGE u t = false := keyGE_false_of_strict t u hkey
  have hidx := pairwise_key_indexOf (tasks.mergeSort keyGE) hnodup_sorted hpw
    t u (hperm.mem_iff.mpr ht) (hperm.mem_iff.mpr hu) hk
  rw [hordeq]
  exact ⟨List.mem_map_of_mem Task.id (hperm.mem_iff.mpr ht),
    List.mem_map_of_mem Task.id (hperm.mem_iff.mpr hu), hidx⟩

/-- C7 amended witness: the hypotheses and the conclusion at the concrete
equal-priority pair — the later-created task is emitted first. -/
theorem C7_descending_key_order_witness :
    ((∀ t ∈ [earlyTask, lateTask], t.dependencies = []) ∧
     ([earlyTask, lateTask].map Task.id).Nodup ∧
     earlyTask.priority = lateTask.priority ∧
     earlyTask.created_at < lateTask.created_at) ∧
    (lateTask.id ∈ (optimizeExecutionOrder [earlyTask, lateTask]).1 ∧
     earlyTask.id ∈ (optimizeExecutionOrder [earlyTask, lateTask]).1 ∧
     (optimizeExecutionOrder [earlyTask, lateTask]).1.indexOf lateTask.id <
       (optimizeExecutionOrder [earlyTask, lateTask]).1.indexOf earlyTask.id) :=
  ⟨⟨by decide, by decide, rfl, by decide⟩,
   C7_descending_key_order [earlyTask, lateTask] (by decide) (by decide)
     lateTask earlyTask (List.mem_cons_of_mem _ (List.mem_cons_self _ _))
     (List.mem_cons_self _ _) (Or.inr ⟨rfl, by decide⟩)⟩

end Brain
